import Mathlib

/-!
Verification development for the depgraph dependency-graph builder
(`src/parser.ts`, with the post-hoc kind filters of `src/cli.ts`).

Strings are modelled as `List Char` (`Str`); the filesystem is modelled as a
flat list of entries, each an absolute path (as a list of `/`-separated
segments) paired with its kind (directory, or file with text content).
Directory-listing order is the order of the entry list, which models the OS
listing order that `fs.readdirSync` exposes.
-/

abbrev Str := List Char

def toStr (s : String) : Str := s.toList

/-- JS `String.prototype.startsWith`. -/
def jsStartsWith (p s : Str) : Bool := p.isPrefixOf s

/-- JS `String.prototype.toLowerCase` (ASCII-relevant part). -/
def lowerStr (s : Str) : Str := s.map Char.toLower

/-- JS `String.prototype.split("/")` — keeps empty segments, result never empty. -/
def splitSlash : Str → List Str
  | [] => [[]]
  | c :: rest =>
    let r := splitSlash rest
    if c = '/' then [] :: r
    else
      match r with
      | h :: t => (c :: h) :: t
      | [] => [[c]]

/-- Path segments of an absolute POSIX path: split on `/`, dropping empty parts. -/
def segsOf (p : Str) : List Str := (splitSlash p).filter (fun s => !s.isEmpty)

/-- Render a segment list as an absolute POSIX path (`[] ↦ "/"`). -/
def strOfSegs (segs : List Str) : Str := '/' :: List.intercalate (toStr ("/")) segs

/-- POSIX path normalization over segments: drop `.`, let `..` pop
(at the root `..` stays at the root, as in Node's resolver). -/
def normalizeSegs (segs : List Str) : List Str :=
  segs.foldl
    (fun acc s =>
      if s = toStr (".") then acc
      else if s = toStr ("..") then acc.dropLast
      else acc ++ [s])
    []

/-- Node `path.resolve(dir, spec)` for an absolute `dir` (all call sites pass
absolute `dir` values derived from the scan root). -/
def pathResolve (dir spec : Str) : Str :=
  if jsStartsWith (toStr ("/")) spec then strOfSegs (normalizeSegs (segsOf spec))
  else strOfSegs (normalizeSegs (segsOf dir ++ segsOf spec))

/-- Node `path.resolve(p)` for an absolute `p` (the CLI resolves the scan root
before `parseProject` sees it; cwd-relative inputs are outside this model). -/
def pathResolveOne (p : Str) : Str := strOfSegs (normalizeSegs (segsOf p))

/-- Node `path.dirname` on an absolute path. -/
def pathDirname (p : Str) : Str := strOfSegs ((segsOf p).dropLast)

/-- Node `path.join(a, b)` for absolute `a` (joins then normalizes). -/
def pathJoin (a b : Str) : Str := strOfSegs (normalizeSegs (segsOf a ++ segsOf b))

/-- Last path segment (basename) of a path. -/
def lastSeg (p : Str) : Str := (segsOf p).getLastD []

/-- Extension of a basename: from the last `.` on, empty when there is no `.`,
when the only `.` is the leading character (hidden files), or when the
basename is all dots (Node returns "" for "." and ".."). -/
def extnameBase (base : Str) : Str :=
  if base.all (fun c => c = '.') then []
  else
    let tl := base.reverse.takeWhile (fun c => c ≠ '.')
    if tl.length + 2 ≤ base.length then '.' :: tl.reverse else []

/-- Node `path.extname`. -/
def pathExtname (p : Str) : Str := extnameBase (lastSeg p)

/-- Drop the longest common segment prefix of two paths. -/
def dropCommon : List Str → List Str → List Str × List Str
  | a :: as_, b :: bs => if a = b then dropCommon as_ bs else (a :: as_, b :: bs)
  | as_, bs => (as_, bs)

/-- Node `path.relative(fromP, toP)` for absolute POSIX paths. -/
def pathRelative (fromP toP : Str) : Str :=
  let r := dropCommon (normalizeSegs (segsOf fromP)) (normalizeSegs (segsOf toP))
  List.intercalate (toStr ("/")) (List.replicate r.1.length (toStr ("..")) ++ r.2)

/-! ## Filesystem model -/

/-- A filesystem entry is a directory or a file with text content. -/
inductive FsKind where
  | dirE : FsKind
  | fileE : Str → FsKind
deriving DecidableEq, Repr

/-- Flat filesystem: absolute paths (as segment lists) with their kinds.
List order models OS directory-listing order. -/
abbrev FS := List (List Str × FsKind)

def lookupFS (fs : FS) (p : List Str) : Option FsKind :=
  (fs.find? (fun e => e.1 == p)).map (fun e => e.2)

/-- `fs.existsSync`. -/
def existsFS (fs : FS) (p : Str) : Bool := (lookupFS fs (segsOf p)).isSome

/-- `fs.existsSync(p) && fs.statSync(p).isFile()`. -/
def isFileFS (fs : FS) (p : Str) : Bool :=
  match lookupFS fs (segsOf p) with
  | some (.fileE _) => true
  | _ => false

/-- `fs.existsSync(p) && fs.statSync(p).isDirectory()`. -/
def isDirFS (fs : FS) (p : Str) : Bool :=
  match lookupFS fs (segsOf p) with
  | some .dirE => true
  | _ => false

/-- `fs.readFileSync(p, "utf-8")`, `none` when the read throws. -/
def readFileFS (fs : FS) (p : Str) : Option Str :=
  match lookupFS fs (segsOf p) with
  | some (.fileE c) => some c
  | _ => none

/-- The immediate children of a directory, in entry-list order: name and kind. -/
def childrenOf (fs : FS) (d : List Str) : List (Str × FsKind) :=
  fs.filterMap (fun e =>
    if !e.1.isEmpty && e.1.dropLast == d then some (e.1.getLastD [], e.2) else none)

/-- `fs.readdirSync(d, { withFileTypes: true })`, `none` when it throws
(missing path or not a directory). -/
def readdirFS (fs : FS) (d : List Str) : Option (List (Str × FsKind)) :=
  match lookupFS fs d with
  | some .dirE => some (childrenOf fs d)
  | _ => none

/-- One more than the depth of the deepest entry: an upper bound on the
directory-walk recursion depth, used as structural fuel. -/
def maxDepthFS (fs : FS) : Nat := fs.foldl (fun m e => max m e.1.length) 0

/-! ## Fixed tables of `parser.ts` (JS `Set`s; list order is insertion order,
which is the `Set` iteration order). -/

def SOURCE_EXTENSIONS : List Str :=
  [toStr (".ts"), toStr (".tsx"), toStr (".js"), toStr (".jsx"), toStr (".mjs"),
   toStr (".cjs"), toStr (".mts"), toStr (".cts"), toStr (".vue"), toStr (".svelte")]

def IGNORED_DIRS : List Str :=
  [toStr ("node_modules"), toStr (".git"), toStr ("dist"), toStr ("build"),
   toStr (".next"), toStr (".nuxt"), toStr ("coverage"), toStr ("__pycache__"),
   toStr (".turbo"), toStr (".cache")]

def NODE_BUILTINS : List Str :=
  [toStr ("assert"), toStr ("buffer"), toStr ("child_process"), toStr ("cluster"),
   toStr ("crypto"), toStr ("dgram"), toStr ("dns"), toStr ("domain"), toStr ("events"),
   toStr ("fs"), toStr ("http"), toStr ("https"), toStr ("net"), toStr ("os"),
   toStr ("path"), toStr ("punycode"), toStr ("querystring"), toStr ("readline"),
   toStr ("stream"), toStr ("string_decoder"), toStr ("timers"), toStr ("tls"),
   toStr ("tty"), toStr ("url"), toStr ("util"), toStr ("v8"), toStr ("vm"),
   toStr ("zlib"), toStr ("worker_threads"), toStr ("perf_hooks"),
   toStr ("async_hooks"), toStr ("inspector"), toStr ("trace_events"), toStr ("wasi")]

/-! ## File discovery (`collectSourceFiles`) -/

/-- The recursive `walk` of `collectSourceFiles`, fuelled for structural
recursion (`maxDepthFS fs + 1` always suffices: every readdir-able directory
is an entry of `fs`, so its segment list is shorter than `maxDepthFS fs + 1`).
A failing `readdirSync` (missing path / not a directory) is caught: the
subtree is skipped. Entries whose name starts with `.` are skipped; ignored
directory names prune whole subtrees; files are kept iff their lowercased
extension is allow-listed. -/
def walkFS (fs : FS) : Nat → List Str → List Str
  | 0, _ => []
  | fuel + 1, cur =>
    match readdirFS fs cur with
    | none => []
    | some entries =>
      entries.flatMap (fun e =>
        if jsStartsWith (toStr (".")) e.1 then []
        else
          match e.2 with
          | .dirE =>
            if IGNORED_DIRS.contains e.1 then [] else walkFS fs fuel (cur ++ [e.1])
          | .fileE _ =>
            if SOURCE_EXTENSIONS.contains (lowerStr (extnameBase e.1)) then
              [strOfSegs (cur ++ [e.1])]
            else [])

/-- `collectSourceFiles(dir)`: walk the tree and return source-file paths. -/
def collectSourceFiles (fs : FS) (dir : Str) : List Str :=
  walkFS fs (maxDepthFS fs + 1) (segsOf dir)

/-! ## Reference extraction (`extractImports`)

The three regexes of `extractImports` are embedded as pattern ASTs run by a
backtracking matcher with JS semantics: ordered alternation, greedy `?`, `+`
and `*`, lazy `*?`, leftmost match, and `exec`-loop resumption from the end
of the previous match (`lastIndex`). Repetition only ever applies to
character classes in these regexes, and each regex has exactly one capturing
group, of the form `([^'"]+)`. -/

/-- The character classes occurring in the three regexes. -/
inductive CC where
  | ws : CC        -- `\s`
  | quoteC : CC    -- `['"]`
  | notQuote : CC  -- `[^'"]`
  | anyC : CC      -- `[\s\S]`
deriving DecidableEq, Repr

/-- JS `\s`: whitespace including the Unicode space characters. -/
def isJsWhitespace (c : Char) : Bool :=
  c == ' ' || c == '\t' || c == '\n' || c == '\r' ||
  c.val == 0x0b || c.val == 0x0c || c.val == 0xa0 || c.val == 0x1680 ||
  (0x2000 ≤ c.val && c.val ≤ 0x200a) || c.val == 0x2028 || c.val == 0x2029 ||
  c.val == 0x202f || c.val == 0x205f || c.val == 0x3000 || c.val == 0xfeff

def ccMem : CC → Char → Bool
  | .ws, c => isJsWhitespace c
  | .quoteC, c => c == '\'' || c == '"'
  | .notQuote, c => !(c == '\'' || c == '"')
  | .anyC, _ => true

/-- Regex items. `grp c` is the capturing group `(c+)` (greedy).
`grpTry c k` is internal to the matcher: the pending attempt to let the
group capture `k` characters, retrying shorter on failure. -/
inductive RItem where
  | lit : Str → RItem             -- literal text
  | one : CC → RItem              -- single character of a class
  | alt : List RItem → List RItem → RItem  -- ordered alternation
  | opt : List RItem → RItem      -- greedy `(?: ... )?`
  | starL : CC → RItem            -- lazy `c*?`
  | starG : CC → RItem            -- greedy `c*`
  | plusG : CC → RItem            -- greedy `c+`
  | grp : CC → RItem              -- capturing `(c+)` (greedy)
  | grpTry : CC → Nat → RItem

/-- Backtracking matcher: match the item sequence at the head of `s`,
returning the group capture (these regexes have exactly one group, always
matched) and the text after the match. Fuel-structural; the recursion
depth is bounded (each call shortens the input, shrinks the item list, or
decrements a `grpTry` counter bounded by the input length), so
`100 * (|s| + 2)` fuel is always sufficient for the three fixed regexes. -/
def matchSeq : Nat → List RItem → Str → Option (Option Str × Str)
  | 0, _, _ => none
  | _ + 1, [], s => some (none, s)
  | fuel + 1, it :: rest, s =>
    match it with
    | .lit l => if l.isPrefixOf s then matchSeq fuel rest (s.drop l.length) else none
    | .one c =>
      match s with
      | [] => none
      | ch :: s' => if ccMem c ch then matchSeq fuel rest s' else none
    | .alt a b =>
      match matchSeq fuel (a ++ rest) s with
      | some r => some r
      | none => matchSeq fuel (b ++ rest) s
    | .opt a =>
      match matchSeq fuel (a ++ rest) s with
      | some r => some r
      | none => matchSeq fuel rest s
    | .starL c =>
      match matchSeq fuel rest s with
      | some r => some r
      | none =>
        match s with
        | [] => none
        | ch :: s' => if ccMem c ch then matchSeq fuel (.starL c :: rest) s' else none
    | .starG c =>
      match s with
      | [] => matchSeq fuel rest s
      | ch :: s' =>
        if ccMem c ch then
          match matchSeq fuel (.starG c :: rest) s' with
          | some r => some r
          | none => matchSeq fuel rest s
        else matchSeq fuel rest s
    | .plusG c =>
      match s with
      | [] => none
      | ch :: s' => if ccMem c ch then matchSeq fuel (.starG c :: rest) s' else none
    | .grp c =>
      let run := s.takeWhile (ccMem c)
      if run.isEmpty then none
      else matchSeq fuel (.grpTry c run.length :: rest) s
    | .grpTry c k =>
      match k with
      | 0 => none
      | k' + 1 =>
        match matchSeq fuel rest (s.drop (k' + 1)) with
        | some (_, r) => some (some (s.take (k' + 1)), r)
        | none => matchSeq fuel (.grpTry c k' :: rest) s

/-- Leftmost match: try `matchSeq` at each successive start position. -/
def searchMatch : Nat → List RItem → Str → Option (Option Str × Str)
  | 0, _, _ => none
  | fuel + 1, r, s =>
    match matchSeq (100 * (s.length + 2)) r s with
    | some res => some res
    | none =>
      match s with
      | [] => none
      | _ :: s' => searchMatch fuel r s'

/-- The `while ((match = re.exec(content)) !== null)` loop of a global
regex: collect group-1 captures of successive leftmost matches, resuming
after each match (every match of these regexes consumes at least one
character, so the loop advances). -/
def execCaptures : Nat → List RItem → Str → List Str
  | 0, _, _ => []
  | fuel + 1, r, s =>
    match searchMatch (s.length + 1) r s with
    | none => []
    | some (cap, rest) => cap.getD [] :: execCaptures fuel r rest

/-- `/(?:import|export)\s+(?:[\s\S]*?\s+from\s+)?['"]([^'"]+)['"]/g` -/
def esImportRegex : List RItem :=
  [.alt [.lit (toStr ("import"))] [.lit (toStr ("export"))],
   .plusG .ws,
   .opt [.starL .anyC, .plusG .ws, .lit (toStr ("from")), .plusG .ws],
   .one .quoteC, .grp .notQuote, .one .quoteC]

/-- `/import\s*\(\s*['"]([^'"]+)['"]\s*\)/g` -/
def dynamicImportRegex : List RItem :=
  [.lit (toStr ("import")), .starG .ws, .lit (toStr ("(")), .starG .ws,
   .one .quoteC, .grp .notQuote, .one .quoteC, .starG .ws, .lit (toStr (")"))]

/-- `/require\s*\(\s*['"]([^'"]+)['"]\s*\)/g` -/
def requireRegex : List RItem :=
  [.lit (toStr ("require")), .starG .ws, .lit (toStr ("(")), .starG .ws,
   .one .quoteC, .grp .notQuote, .one .quoteC, .starG .ws, .lit (toStr (")"))]

/-- `[...new Set(l)]`: deduplicate by exact equality keeping first-seen order. -/
def dedupFirst (l : List Str) : List Str :=
  l.foldl (fun acc x => if acc.contains x then acc else acc ++ [x]) []

/-- `extractImports(content)`: pool the matches of the ES-form regex, then
the dynamic-import regex, then the require regex, and deduplicate. -/
def extractImports (content : Str) : List Str :=
  let specifiers :=
    execCaptures (content.length + 1) esImportRegex content ++
    execCaptures (content.length + 1) dynamicImportRegex content ++
    execCaptures (content.length + 1) requireRegex content
  dedupFirst specifiers

/-! ## Local resolution (`resolveLocalImport`) -/

/-- `resolveLocalImport(specifier, fromFile, rootDir)`: resolve against the
referencing file's directory; try the exact path (must be a regular file),
then each allow-listed extension appended (existence only), then, if the
resolved path is a directory, `index` plus each extension inside it.
`rootDir` is unused by the source function but kept in its signature. -/
def resolveLocalImport (fs : FS) (specifier fromFile rootDir : Str) : Option Str :=
  let dir := pathDirname fromFile
  let resolved := pathResolve dir specifier
  if isFileFS fs resolved then some resolved
  else
    match SOURCE_EXTENSIONS.find? (fun ext => existsFS fs (resolved ++ ext)) with
    | some ext => some (resolved ++ ext)
    | none =>
      if isDirFS fs resolved then
        match SOURCE_EXTENSIONS.find?
            (fun ext => existsFS fs (pathJoin resolved (toStr ("index") ++ ext))) with
        | some ext => some (pathJoin resolved (toStr ("index") ++ ext))
        | none => none
      else none

/-! ## Classification (`classifyImport`) -/

/-- The node/import kind union `"local" | "package" | "builtin"`. -/
inductive NodeType where
  | loc : NodeType
  | pack : NodeType
  | builtin : NodeType
deriving DecidableEq, Repr

/-- JS `specifier.split("/")[0]`. -/
def splitHead (s : Str) : Str := (splitSlash s).getD 0 []

/-- `classifyImport(specifier)`. -/
def classifyImport (specifier : Str) : NodeType :=
  if jsStartsWith (toStr (".")) specifier || jsStartsWith (toStr ("/")) specifier then .loc
  else
    let bare :=
      if jsStartsWith (toStr ("node:")) specifier then specifier.drop 5
      else splitHead specifier
    if NODE_BUILTINS.contains bare || jsStartsWith (toStr ("node:")) specifier then .builtin
    else .pack

/-! ## Graph builder (`parseProject`) -/

structure GraphNode where
  id : Str
  label : Str
  type : NodeType
  extension : Str
deriving DecidableEq, Repr

structure GraphLink where
  source : Str
  target : Str
deriving DecidableEq, Repr

structure DependencyGraph where
  nodes : List GraphNode
  links : List GraphLink
deriving DecidableEq, Repr

/-- `getOrCreateNode(id, type, ext)`: the insertion-ordered `nodesMap` is a
node list; create the node (with `label = id`) only when the id is absent. -/
def getOrCreateNode (nodes : List GraphNode) (id : Str) (ty : NodeType) (ext : Str) :
    List GraphNode :=
  if nodes.any (fun n => n.id == id) then nodes else nodes ++ [⟨id, id, ty, ext⟩]

/-- Target id of a `builtin` specifier (parseProject's builtin branch):
prepend `node:` unless already present. -/
def builtinTargetId (specifier : Str) : Str :=
  if jsStartsWith (toStr ("node:")) specifier then specifier
  else toStr ("node:") ++ specifier

/-- Target id of a `package` specifier (parseProject's package branch):
`@scope/name` for scoped names, otherwise the first path segment. -/
def packageTargetId (specifier : Str) : Str :=
  let parts := splitSlash specifier
  if jsStartsWith (toStr ("@")) specifier && parts.length ≥ 2 then
    parts.getD 0 [] ++ toStr ("/") ++ parts.getD 1 []
  else parts.getD 0 []

/-- The body of parseProject's per-specifier loop: classify, derive the
target id (resolving local specifiers, falling back to the raw specifier),
create or reuse the target node, and append one link. `st` is the pair
(insertion-ordered node list, link list). -/
def processSpecifier (fs : FS) (absoluteRoot sourceId file : Str)
    (st : List GraphNode × List GraphLink) (specifier : Str) :
    List GraphNode × List GraphLink :=
  let importType := classifyImport specifier
  let next :=
    match importType with
    | .loc =>
      match resolveLocalImport fs specifier file absoluteRoot with
      | some resolved =>
        (getOrCreateNode st.1 (pathRelative absoluteRoot resolved) .loc
          (pathExtname resolved),
         pathRelative absoluteRoot resolved)
      | none =>
        (getOrCreateNode st.1 specifier .loc (pathExtname specifier), specifier)
    | .builtin =>
      (getOrCreateNode st.1 (builtinTargetId specifier) .builtin [],
       builtinTargetId specifier)
    | .pack =>
      (getOrCreateNode st.1 (packageTargetId specifier) .pack [],
       packageTargetId specifier)
  (next.1, st.2 ++ [⟨sourceId, next.2⟩])

/-- The body of parseProject's per-file loop: read the file (a failing read
contributes nothing), extract its specifiers, and process each in order. -/
def processFile (fs : FS) (absoluteRoot : Str)
    (st : List GraphNode × List GraphLink) (file : Str) :
    List GraphNode × List GraphLink :=
  match readFileFS fs file with
  | none => st
  | some content =>
    (extractImports content).foldl
      (processSpecifier fs absoluteRoot (pathRelative absoluteRoot file) file) st

/-- `parseProject(rootDir)`: discover source files, register one local node
per file (keyed by its root-relative path), then build links file by file. -/
def parseProject (fs : FS) (rootDir : Str) : DependencyGraph :=
  let absoluteRoot := pathResolveOne rootDir
  let sourceFiles := collectSourceFiles fs absoluteRoot
  let nodes0 := sourceFiles.foldl
    (fun ns f => getOrCreateNode ns (pathRelative absoluteRoot f) .loc (pathExtname f))
    []
  let st := sourceFiles.foldl (processFile fs absoluteRoot) (nodes0, [])
  ⟨st.1, st.2⟩

/-! ## CLI post-hoc kind filter (`cli.ts`, the `--no-packages` and
`--no-builtins` blocks share this shape) -/

/-- Remove all nodes of kind `k` and every link whose source or target key
is the id of a removed node. -/
def cliExcludeKind (graph : DependencyGraph) (k : NodeType) : DependencyGraph :=
  let ids := (graph.nodes.filter (fun n => n.type == k)).map (fun n => n.id)
  ⟨graph.nodes.filter (fun n => !(n.type == k)),
   graph.links.filter (fun l => !(ids.contains l.source) && !(ids.contains l.target))⟩

/-! ## Derived definitions used by the verification statements -/

/-- A node with this id is present. -/
def idMem (nodes : List GraphNode) (x : Str) : Bool := nodes.any (fun n => n.id == x)

/-- Every link's source and target ids are ids of present nodes. -/
def noDangling (g : DependencyGraph) : Bool :=
  g.links.all (fun l => idMem g.nodes l.source && idMem g.nodes l.target)

/-- The target id `processSpecifier` assigns to a specifier (a pure value:
the branch of parseProject's loop that computes `targetId`). -/
def targetIdOf (fs : FS) (absRoot file specifier : Str) : Str :=
  match classifyImport specifier with
  | .loc =>
    match resolveLocalImport fs specifier file absRoot with
    | some r => pathRelative absRoot r
    | none => specifier
  | .builtin => builtinTargetId specifier
  | .pack => packageTargetId specifier

/-- The links one scanned file contributes: one per extracted specifier, in
extraction order (none when the file read fails). -/
def linksOfFile (fs : FS) (absRoot file : Str) : List GraphLink :=
  match readFileFS fs file with
  | none => []
  | some content =>
    (extractImports content).map
      (fun sp => ⟨pathRelative absRoot file, targetIdOf fs absRoot file sp⟩)

/-- A link touches a node of kind `k` of the graph: some node of that kind
has the link's source or target as its id. -/
def touchesKind (g : DependencyGraph) (k : NodeType) (l : GraphLink) : Bool :=
  g.nodes.any (fun n => n.type == k && (n.id == l.source || n.id == l.target))

/-- Local resolution as the claim words it: (1) the specifier resolved
against the referencing file's directory as an exact existing regular file;
(2) that resolved path with each allow-listed source extension appended, in
the fixed order, first existing wins; (3) if the resolved path is an
existing directory, the first existing `index`+extension inside it;
otherwise not-found. Stated for comparison with `resolveLocalImport`. -/
def specResolveLocal (fs : FS) (specifier fromFile : Str) : Option Str :=
  let resolved := pathResolve (pathDirname fromFile) specifier
  if isFileFS fs resolved then some resolved
  else
    match (SOURCE_EXTENSIONS.map (fun ext => resolved ++ ext)).find? (existsFS fs) with
    | some p => some p
    | none =>
      if isDirFS fs resolved then
        match (SOURCE_EXTENSIONS.map
            (fun ext => pathJoin resolved (toStr ("index") ++ ext))).find? (existsFS fs) with
        | some p => some p
        | none => none
      else none

/-! ## Concrete filesystem fixtures -/

/-- One file whose two distinct specifiers resolve to the same target. -/
def fsDupTarget : FS :=
  [([toStr ("root")], .dirE),
   ([toStr ("root"), toStr ("index.ts")], .fileE (toStr ("import './a'; import './a.ts';"))),
   ([toStr ("root"), toStr ("a.ts")], .fileE [])]

/-- One file with an unresolvable local specifier that carries an extension. -/
def fsUnresolved : FS :=
  [([toStr ("root")], .dirE),
   ([toStr ("root"), toStr ("index.ts")], .fileE (toStr ("import './nope.ts';")))]

/-- One file importing the builtin `fs` both bare and with the `node:` scheme. -/
def fsBuiltins : FS :=
  [([toStr ("root")], .dirE),
   ([toStr ("root"), toStr ("index.ts")], .fileE (toStr ("import 'fs'; import 'node:fs';")))]

/-- One file importing a scoped package subpath and a package subpath. -/
def fsPackages : FS :=
  [([toStr ("root")], .dirE),
   ([toStr ("root"), toStr ("index.ts")],
    .fileE (toStr ("import '@scope/pkg/subpath'; import 'lodash/fp';")))]

/-- `/root/src/lib/` is a directory containing `index.ts`; `main.ts` imports
`./lib`. -/
def fsLibIndex : FS :=
  [([toStr ("root")], .dirE),
   ([toStr ("root"), toStr ("src")], .dirE),
   ([toStr ("root"), toStr ("src"), toStr ("main.ts")], .fileE (toStr ("import './lib';"))),
   ([toStr ("root"), toStr ("src"), toStr ("lib")], .dirE),
   ([toStr ("root"), toStr ("src"), toStr ("lib"), toStr ("index.ts")], .fileE [])]

/-! ## Helper lemmas -/

theorem idMem_getOrCreate_self (ns : List GraphNode) (i : Str) (t : NodeType) (e : Str) :
    idMem (getOrCreateNode ns i t e) i = true := by
  unfold getOrCreateNode idMem
  by_cases h : ns.any (fun n => n.id == i) = true
  · simp [h]
  · simp only [h, if_false, Bool.if_false_right, List.any_append]
    simp

theorem idMem_getOrCreate_mono (ns : List GraphNode) (i : Str) (t : NodeType) (e x : Str)
    (h : idMem ns x = true) : idMem (getOrCreateNode ns i t e) x = true := by
  unfold getOrCreateNode
  by_cases hc : ns.any (fun n => n.id == i) = true
  · simpa [hc, idMem] using h
  · simp only [hc, if_false]
    unfold idMem at h ⊢
    simp [List.any_append, h]

/-- Fold preservation with membership of the folded element. -/
theorem foldl_pres_mem {α : Type} {β : Type} (P : α → Prop) (step : α → β → α) :
    ∀ (l : List β), (∀ s b, b ∈ l → P s → P (step s b)) → ∀ s, P s → P (l.foldl step s)
  | [], _, _, hs => hs
  | b :: l, h, s, hs =>
    foldl_pres_mem P step l (fun s' b' hb' => h s' b' (List.mem_cons_of_mem _ hb'))
      (step s b) (h s b (List.mem_cons_self _ _) hs)

/-- Every branch of the per-specifier step creates/reuses the node keyed by
`targetIdOf` and appends exactly the link to it. -/
theorem processSpecifier_shape (fs : FS) (root src file : Str)
    (st : List GraphNode × List GraphLink) (sp : Str) :
    ∃ ty ext,
      processSpecifier fs root src file st sp =
        (getOrCreateNode st.1 (targetIdOf fs root file sp) ty ext,
         st.2 ++ [⟨src, targetIdOf fs root file sp⟩]) := by
  unfold processSpecifier targetIdOf
  cases hcl : classifyImport sp with
  | loc =>
    cases hr : resolveLocalImport fs sp file root with
    | none => exact ⟨.loc, pathExtname sp, rfl⟩
    | some r => exact ⟨.loc, pathExtname r, rfl⟩
  | builtin => exact ⟨.builtin, [], rfl⟩
  | pack => exact ⟨.pack, [], rfl⟩

theorem processSpecifier_nodes_mono (fs : FS) (root src file : Str)
    (st : List GraphNode × List GraphLink) (sp x : Str)
    (h : idMem st.1 x = true) :
    idMem (processSpecifier fs root src file st sp).1 x = true := by
  obtain ⟨ty, ext, hshape⟩ := processSpecifier_shape fs root src file st sp
  rw [hshape]
  exact idMem_getOrCreate_mono _ _ _ _ _ h

theorem processFile_nodes_mono (fs : FS) (root : Str)
    (st : List GraphNode × List GraphLink) (file x : Str)
    (h : idMem st.1 x = true) :
    idMem (processFile fs root st file).1 x = true := by
  unfold processFile
  cases hr : readFileFS fs file with
  | none => exact h
  | some content =>
    exact foldl_pres_mem (fun s => idMem s.1 x = true) _ _
      (fun s b _ hs => processSpecifier_nodes_mono fs root _ file s b x hs) st h

/-- Folding the per-specifier step appends exactly one link per specifier. -/
theorem foldl_processSpecifier_links (fs : FS) (root src file : Str) :
    ∀ (l : List Str) (st : List GraphNode × List GraphLink),
      (l.foldl (processSpecifier fs root src file) st).2 =
        st.2 ++ l.map (fun sp => (⟨src, targetIdOf fs root file sp⟩ : GraphLink))
  | [], st => by simp
  | sp :: l, st => by
    obtain ⟨ty, ext, hshape⟩ := processSpecifier_shape fs root src file st sp
    rw [List.foldl_cons, foldl_processSpecifier_links fs root src file l _, hshape]
    simp

/-- The per-file step appends exactly the file's links. -/
theorem processFile_links (fs : FS) (root : Str)
    (st : List GraphNode × List GraphLink) (file : Str) :
    (processFile fs root st file).2 = st.2 ++ linksOfFile fs root file := by
  unfold processFile linksOfFile
  cases hr : readFileFS fs file with
  | none => simp
  | some content => rw [foldl_processSpecifier_links]

theorem foldl_processFile_links (fs : FS) (root : Str) :
    ∀ (files : List Str) (st : List GraphNode × List GraphLink),
      (files.foldl (processFile fs root) st).2 =
        st.2 ++ files.flatMap (linksOfFile fs root)
  | [], st => by simp
  | f :: files, st => by
    rw [List.foldl_cons, foldl_processFile_links fs root files _, processFile_links]
    simp

/-- The node-registration fold preserves id membership. -/
theorem foldl_register_mono (root : Str) :
    ∀ (l : List Str) (ns : List GraphNode) (x : Str), idMem ns x = true →
      idMem (l.foldl
        (fun ns f => getOrCreateNode ns (pathRelative root f) .loc (pathExtname f)) ns)
        x = true
  | [], _, _, h => h
  | f :: l, ns, x, h =>
    foldl_register_mono root l _ x (idMem_getOrCreate_mono _ _ _ _ _ h)

/-- After registration, every folded file's root-relative id is present. -/
theorem foldl_register_mem (root : Str) :
    ∀ (l : List Str) (ns : List GraphNode) (f : Str), f ∈ l →
      idMem (l.foldl
        (fun ns f => getOrCreateNode ns (pathRelative root f) .loc (pathExtname f)) ns)
        (pathRelative root f) = true := by
  intro l
  induction l with
  | nil => intro ns f h; cases h
  | cons a l ih =>
    intro ns f h
    rcases List.mem_cons.mp h with rfl | hmem
    · exact foldl_register_mono root l _ _ (idMem_getOrCreate_self _ _ _ _)
    · exact ih _ f hmem

/-- The per-specifier step preserves the no-dangling invariant together with
the presence of every discovered file's id. -/
theorem processSpecifier_inv (fs : FS) (root file : Str) (files : List Str)
    (hf : file ∈ files) (st : List GraphNode × List GraphLink) (sp : Str)
    (h1 : st.2.all (fun l => idMem st.1 l.source && idMem st.1 l.target) = true)
    (h2 : ∀ f ∈ files, idMem st.1 (pathRelative root f) = true) :
    (processSpecifier fs root (pathRelative root file) file st sp).2.all
        (fun l =>
          idMem (processSpecifier fs root (pathRelative root file) file st sp).1 l.source &&
          idMem (processSpecifier fs root (pathRelative root file) file st sp).1 l.target)
        = true ∧
      ∀ f ∈ files,
        idMem (processSpecifier fs root (pathRelative root file) file st sp).1
          (pathRelative root f) = true := by
  obtain ⟨ty, ext, hshape⟩ := processSpecifier_shape fs root (pathRelative root file) file st sp
  rw [hshape]
  constructor
  · rw [List.all_append, Bool.and_eq_true]
    constructor
    · rw [List.all_eq_true] at h1 ⊢
      intro l hl
      have := h1 l hl
      rw [Bool.and_eq_true] at this ⊢
      exact ⟨idMem_getOrCreate_mono _ _ _ _ _ this.1, idMem_getOrCreate_mono _ _ _ _ _ this.2⟩
    · simp only [List.all_cons, List.all_nil, Bool.and_true, Bool.and_eq_true]
      exact ⟨idMem_getOrCreate_mono _ _ _ _ _ (h2 file hf), idMem_getOrCreate_self _ _ _ _⟩
  · intro f hmem
    exact idMem_getOrCreate_mono _ _ _ _ _ (h2 f hmem)

/-- The per-file step preserves the no-dangling invariant. -/
theorem processFile_inv (fs : FS) (root : Str) (files : List Str) (file : Str)
    (hf : file ∈ files) (st : List GraphNode × List GraphLink)
    (h1 : st.2.all (fun l => idMem st.1 l.source && idMem st.1 l.target) = true)
    (h2 : ∀ f ∈ files, idMem st.1 (pathRelative root f) = true) :
    (processFile fs root st file).2.all
        (fun l =>
          idMem (processFile fs root st file).1 l.source &&
          idMem (processFile fs root st file).1 l.target) = true ∧
      ∀ f ∈ files, idMem (processFile fs root st file).1 (pathRelative root f) = true := by
  unfold processFile
  cases hr : readFileFS fs file with
  | none => exact ⟨h1, h2⟩
  | some content =>
    exact foldl_pres_mem
      (fun s => s.2.all (fun l => idMem s.1 l.source && idMem s.1 l.target) = true ∧
        ∀ f ∈ files, idMem s.1 (pathRelative root f) = true)
      _ _ (fun s sp _ hs => processSpecifier_inv fs root file files hf s sp hs.1 hs.2)
      st ⟨h1, h2⟩

/-- parseProject never produces a dangling edge. -/
theorem parseProject_noDangling (fs : FS) (root : Str) :
    noDangling (parseProject fs root) = true := by
  unfold parseProject
  set absRoot := pathResolveOne root with habs
  set files := collectSourceFiles fs absRoot with hfiles
  set nodes0 := files.foldl
    (fun ns f => getOrCreateNode ns (pathRelative absRoot f) .loc (pathExtname f)) []
    with hnodes0
  have hinv := foldl_pres_mem
    (fun s : List GraphNode × List GraphLink =>
      s.2.all (fun l => idMem s.1 l.source && idMem s.1 l.target) = true ∧
        ∀ f ∈ files, idMem s.1 (pathRelative absRoot f) = true)
    (processFile fs absRoot) files
    (fun s b hb hs => processFile_inv fs absRoot files b hb s hs.1 hs.2)
    (nodes0, [])
    ⟨by simp, fun f hf => by
      rw [hnodes0]
      exact foldl_register_mem absRoot files [] f hf⟩
  exact hinv.1

/-- A node id that survives the exclusion list is the id of a surviving node. -/
theorem idMem_exclude (ns : List GraphNode) (k : NodeType) (x : Str)
    (h : idMem ns x = true)
    (hc : ((ns.filter (fun n => n.type == k)).map (fun n => n.id)).contains x = false) :
    idMem (ns.filter (fun n => !(n.type == k))) x = true := by
  unfold idMem at h ⊢
  rw [List.any_eq_true] at h ⊢
  obtain ⟨n, hn, hid⟩ := h
  refine ⟨n, ?_, hid⟩
  rw [List.mem_filter]
  refine ⟨hn, ?_⟩
  cases hk : (n.type == k) with
  | false => simp
  | true =>
    exfalso
    have : x ∈ (ns.filter (fun n => n.type == k)).map (fun n => n.id) := by
      rw [List.mem_map]
      exact ⟨n, List.mem_filter.mpr ⟨hn, hk⟩, eq_of_beq hid⟩
    rw [List.contains, List.elem_eq_mem, decide_eq_false_iff_not] at hc
    exact hc this

/-- The CLI kind-exclusion filter preserves the no-dangling invariant. -/
theorem cliExcludeKind_noDangling (g : DependencyGraph) (k : NodeType)
    (h : noDangling g = true) : noDangling (cliExcludeKind g k) = true := by
  unfold noDangling at h
  unfold noDangling cliExcludeKind
  rw [List.all_eq_true] at h ⊢
  intro l hl
  rw [List.mem_filter] at hl
  obtain ⟨hmem, hcond⟩ := hl
  have hg := h l hmem
  rw [Bool.and_eq_true] at hg hcond ⊢
  simp only [Bool.not_eq_true'] at hcond
  exact ⟨idMem_exclude _ _ _ hg.1 hcond.1, idMem_exclude _ _ _ hg.2 hcond.2⟩

/-! ## Claim theorems -/

/-- C1 (counterexample): on the spec's fixture the extractor does NOT return
`['./a', './b', './c', './d']` — the ES-form pass collects `./a` and `./d`
before the dynamic-import and require passes contribute `./b` and `./c`. -/
theorem C1_counterexample :
    extractImports
        (toStr ("import x from './a'; import('./b'); const c = require('./c'); import './d';")) ≠
      [toStr ("./a"), toStr ("./b"), toStr ("./c"), toStr ("./d")] := by
  decide

/-- C1 (amended): on the spec's fixture the extractor returns exactly
`['./a', './d', './b', './c']`: matches of the three syntactic forms are
pooled per pass (static/export forms first, then dynamic imports, then
requires) and deduplicated by exact string equality preserving first-seen
order in the pooled sequence, as the repeated-specifier fixture shows. -/
theorem C1_amended :
    extractImports
        (toStr ("import x from './a'; import('./b'); const c = require('./c'); import './d';")) =
      [toStr ("./a"), toStr ("./d"), toStr ("./b"), toStr ("./c")] ∧
    extractImports (toStr ("import './a'; import './a'; const c = require('./a');")) =
      [toStr ("./a")] := by
  constructor
  · decide
  · decide

/-- C2: every graph parseProject returns has no dangling edges — each link's
source and target ids are ids of present nodes — and the CLI's post-hoc
kind-exclusion filter (applied once or twice, as the CLI may do for
`--no-packages` and `--no-builtins`) preserves the invariant. -/
theorem C2_no_dangling_edges (fs : FS) (root : Str) (k k' : NodeType) :
    noDangling (parseProject fs root) = true ∧
    noDangling (cliExcludeKind (parseProject fs root) k) = true ∧
    noDangling (cliExcludeKind (cliExcludeKind (parseProject fs root) k) k') = true :=
  ⟨parseProject_noDangling fs root,
   cliExcludeKind_noDangling _ _ (parseProject_noDangling fs root),
   cliExcludeKind_noDangling _ _
     (cliExcludeKind_noDangling _ _ (parseProject_noDangling fs root))⟩

/-- C3 (counterexample): an unresolved local specifier `'./nope.ts'` yields a
node keyed by the raw specifier whose extension is `.ts` — `path.extname` of
the raw specifier — not the empty extension the claim states. -/
theorem C3_counterexample :
    (parseProject fsUnresolved (toStr ("/root"))).nodes.find?
        (fun n => n.id == toStr ("./nope.ts")) =
      some ⟨toStr ("./nope.ts"), toStr ("./nope.ts"), .loc, toStr (".ts")⟩ ∧
    toStr (".ts") ≠ ([] : Str) := by
  constructor
  · decide
  · decide

/-- C3 (amended): when a specifier classifies as local and resolution fails,
the builder still creates a local-kind node keyed by the raw specifier — its
extension is `path.extname` of the raw specifier (empty only when the
specifier carries none) — and the reference still contributes an edge. -/
theorem C3_amended (fs : FS) (root src file : Str)
    (st : List GraphNode × List GraphLink) (sp : Str)
    (hcl : classifyImport sp = .loc)
    (hres : resolveLocalImport fs sp file root = none) :
    processSpecifier fs root src file st sp =
      (getOrCreateNode st.1 sp .loc (pathExtname sp),
       st.2 ++ [⟨src, sp⟩]) := by
  simp only [processSpecifier, hcl, hres]

/-- C3 (witness): the amended statement at a concrete unresolvable local
specifier. -/
theorem C3_witness :
    processSpecifier [] (toStr ("/root")) (toStr ("index.ts")) (toStr ("/root/index.ts"))
        ([], []) (toStr ("./x")) =
      (getOrCreateNode [] (toStr ("./x")) .loc (pathExtname (toStr ("./x"))),
       [] ++ [⟨toStr ("index.ts"), toStr ("./x")⟩]) :=
  C3_amended [] (toStr ("/root")) (toStr ("index.ts")) (toStr ("/root/index.ts"))
    ([], []) (toStr ("./x")) (by decide) (by decide)

/-- C4 (counterexample): builtin nodes are keyed `node:<name>`, not
`builtin:<name>`: importing `fs` creates the node `node:fs` and no
`builtin:fs` node exists. -/
theorem C4_counterexample :
    idMem (parseProject fsBuiltins (toStr ("/root"))).nodes (toStr ("builtin:fs")) = false ∧
    idMem (parseProject fsBuiltins (toStr ("/root"))).nodes (toStr ("node:fs")) = true ∧
    classifyImport (toStr ("fs")) = .builtin := by
  refine ⟨by decide, by decide, by decide⟩

/-- C4 (amended): every specifier classified builtin creates or reuses the
node keyed by the normalized `node:<name>` form (the `node:` scheme is
prepended unless already present); in particular `fs` and `node:fs` both
normalize to the single key `node:fs`. -/
theorem C4_amended (fs : FS) (root src file : Str)
    (st : List GraphNode × List GraphLink) (sp : Str)
    (hcl : classifyImport sp = .builtin) :
    processSpecifier fs root src file st sp =
      (getOrCreateNode st.1 (builtinTargetId sp) .builtin [],
       st.2 ++ [⟨src, builtinTargetId sp⟩]) ∧
    builtinTargetId (toStr ("fs")) = toStr ("node:fs") ∧
    builtinTargetId (toStr ("node:fs")) = toStr ("node:fs") := by
  refine ⟨?_, by decide, by decide⟩
  simp only [processSpecifier, hcl]

/-- C4 (witness): the amended statement at the concrete specifier `fs`. -/
theorem C4_witness :
    processSpecifier [] (toStr ("/root")) (toStr ("index.ts")) (toStr ("/root/index.ts"))
        ([], []) (toStr ("fs")) =
      (getOrCreateNode [] (builtinTargetId (toStr ("fs"))) .builtin [],
       [] ++ [⟨toStr ("index.ts"), builtinTargetId (toStr ("fs"))⟩]) ∧
    builtinTargetId (toStr ("fs")) = toStr ("node:fs") ∧
    builtinTargetId (toStr ("node:fs")) = toStr ("node:fs") :=
  C4_amended [] (toStr ("/root")) (toStr ("index.ts")) (toStr ("/root/index.ts"))
    ([], []) (toStr ("fs")) (by decide)

/-- C5: edges are not deduplicated — parseProject's link list is exactly one
link per specifier of each scanned file's (string-deduplicated) extracted
list, in order; concretely, the two distinct specifiers `'./a'` and
`'./a.ts'` of one file both resolve to target `a.ts` and the pair
`(index.ts, a.ts)` appears twice. -/
theorem C5_one_edge_per_reference (fs : FS) (root : Str) :
    (parseProject fs root).links =
      (collectSourceFiles fs (pathResolveOne root)).flatMap
        (linksOfFile fs (pathResolveOne root)) ∧
    (parseProject fsDupTarget (toStr ("/root"))).links =
      [⟨toStr ("index.ts"), toStr ("a.ts")⟩, ⟨toStr ("index.ts"), toStr ("a.ts")⟩] := by
  constructor
  · show (parseProject fs root).links = _
    simp only [parseProject]
    rw [foldl_processFile_links]
    simp
  · decide

/-- C9: package key derivation — `@scope/pkg/subpath` classifies as package
with node key `@scope/pkg`; `lodash/fp` classifies as package with node key
`lodash`; the corresponding nodes appear in a built graph. -/
theorem C9_package_keys :
    classifyImport (toStr ("@scope/pkg/subpath")) = .pack ∧
    packageTargetId (toStr ("@scope/pkg/subpath")) = toStr ("@scope/pkg") ∧
    classifyImport (toStr ("lodash/fp")) = .pack ∧
    packageTargetId (toStr ("lodash/fp")) = toStr ("lodash") ∧
    idMem (parseProject fsPackages (toStr ("/root"))).nodes (toStr ("@scope/pkg")) = true ∧
    idMem (parseProject fsPackages (toStr ("/root"))).nodes (toStr ("lodash")) = true := by
  refine ⟨by decide, by decide, by decide, by decide, by decide, by decide⟩

/-- C10: a scan root that does not exist or is not a directory is swallowed
inside discovery (the directory read's failure is caught), and parseProject
returns the empty graph instead of throwing. -/
theorem C10_invalid_root (fs : FS) (root : Str)
    (h : isDirFS fs (pathResolveOne root) = false) :
    parseProject fs root = ⟨[], []⟩ := by
  have hrd : readdirFS fs (segsOf (pathResolveOne root)) = none := by
    unfold isDirFS at h
    unfold readdirFS
    cases hl : lookupFS fs (segsOf (pathResolveOne root)) with
    | none => rfl
    | some k =>
      cases k with
      | dirE => rw [hl] at h; simp at h
      | fileE c => rfl
  have hcol : collectSourceFiles fs (pathResolveOne root) = [] := by
    unfold collectSourceFiles
    simp [walkFS, hrd]
  simp [parseProject, hcol]

/-- C10 (witness): the empty filesystem has no `/missing` directory. -/
theorem C10_witness : parseProject ([] : FS) (toStr ("/missing")) = ⟨[], []⟩ :=
  C10_invalid_root [] (toStr ("/missing")) (by decide)

theorem jsStartsWith_node_not_rel (s : Str) (h : jsStartsWith (toStr ("node:")) s = true) :
    jsStartsWith (toStr (".")) s = false ∧ jsStartsWith (toStr ("/")) s = false := by
  cases s with
  | nil => simp [jsStartsWith, toStr, List.isPrefixOf] at h
  | cons c t =>
    have hc : c = 'n' := by
      have he : toStr ("node:") = 'n' :: toStr ("ode:") := rfl
      rw [jsStartsWith, he] at h
      simp [List.isPrefixOf] at h
      exact h.1.symm
    subst hc
    constructor
    · have h1 : ('.' == 'n') = false := by decide
      simp [jsStartsWith, toStr, List.isPrefixOf, h1]
    · have h1 : ('/' == 'n') = false := by decide
      simp [jsStartsWith, toStr, List.isPrefixOf, h1]

theorem C7_classify_total (s : Str) :
    (classifyImport s = .loc ∨ classifyImport s = .pack ∨ classifyImport s = .builtin) ∧
    ((jsStartsWith (toStr (".")) s || jsStartsWith (toStr ("/")) s) = true →
      classifyImport s = .loc) ∧
    (jsStartsWith (toStr ("node:")) s = true → classifyImport s = .builtin) := by
  refine ⟨?_, ?_, ?_⟩
  · simp only [classifyImport]
    split
    · exact Or.inl rfl
    · split
      · split
        · exact Or.inr (Or.inr rfl)
        · exact Or.inr (Or.inl rfl)
      · split
        · exact Or.inr (Or.inr rfl)
        · exact Or.inr (Or.inl rfl)
  · intro h
    simp [classifyImport, h]
  · intro h
    obtain ⟨h1, h2⟩ := jsStartsWith_node_not_rel s h
    simp [classifyImport, h1, h2, h]

theorem find?_map_eq {α β : Type} (l : List α) (f : α → β) (p : β → Bool) :
    (l.map f).find? p =
      match l.find? (fun a => p (f a)) with
      | some a => some (f a)
      | none => none := by
  induction l with
  | nil => rfl
  | cons a l ih =>
    simp only [List.map_cons, List.find?]
    cases h : p (f a) with
    | false => simpa [h] using ih
    | true => simp [h]

theorem C6_resolution_order (fs : FS) (sp f r : Str) :
    resolveLocalImport fs sp f r = specResolveLocal fs sp f ∧
    resolveLocalImport fsLibIndex (toStr ("./lib")) (toStr ("/root/src/main.ts"))
        (toStr ("/root")) =
      some (toStr ("/root/src/lib/index.ts")) := by
  constructor
  · simp only [resolveLocalImport, specResolveLocal, find?_map_eq]
    cases h1 : SOURCE_EXTENSIONS.find?
        (fun ext => existsFS fs (pathResolve (pathDirname f) sp ++ ext)) with
    | none =>
      cases h2 : SOURCE_EXTENSIONS.find?
          (fun ext => existsFS fs (pathJoin (pathResolve (pathDirname f) sp)
            (toStr ("index") ++ ext))) with
      | none => simp [h1, h2]
      | some e => simp [h1, h2]
    | some e => simp [h1]
  · decide

theorem contains_kind_ids (ns : List GraphNode) (k : NodeType) (x : Str) :
    ((ns.filter (fun n => n.type == k)).map (fun n => n.id)).contains x =
      ns.any (fun n => n.type == k && n.id == x) := by
  rw [Bool.eq_iff_iff]
  simp only [List.contains, List.elem_eq_mem, decide_eq_true_eq, List.mem_map,
    List.mem_filter, List.any_eq_true, Bool.and_eq_true, beq_iff_eq]
  constructor
  · rintro ⟨n, ⟨hn, hk⟩, hid⟩
    exact ⟨n, hn, hk, hid⟩
  · rintro ⟨n, hn, hk, hid⟩
    exact ⟨n, ⟨hn, hk⟩, hid⟩

theorem C8_filter_frame (g : DependencyGraph) :
    (cliExcludeKind g .pack).nodes = g.nodes.filter (fun n => !(n.type == .pack)) ∧
    (cliExcludeKind g .pack).links = g.links.filter (fun l => !(touchesKind g .pack l)) := by
  constructor
  · rfl
  · show g.links.filter _ = _
    apply List.filter_congr
    intro l hl
    rw [contains_kind_ids, contains_kind_ids, ← Bool.not_or]
    congr 1
    rw [Bool.eq_iff_iff]
    simp only [touchesKind, Bool.or_eq_true, List.any_eq_true, Bool.and_eq_true,
      Bool.or_eq_true]
    constructor
    · rintro (⟨n, hn, hk, hid⟩ | ⟨n, hn, hk, hid⟩)
      · exact ⟨n, hn, hk, Or.inl hid⟩
      · exact ⟨n, hn, hk, Or.inr hid⟩
    · rintro ⟨n, hn, hk, hid | hid⟩
      · exact Or.inl ⟨n, hn, hk, hid⟩
      · exact Or.inr ⟨n, hn, hk, hid⟩

/-- C7 (witness): the prefix implications at concrete specifiers. -/
theorem C7_witness :
    classifyImport (toStr ("node:zzz")) = .builtin ∧
    classifyImport (toStr ("./x")) = .loc :=
  ⟨(C7_classify_total (toStr ("node:zzz"))).2.2 (by decide),
   (C7_classify_total (toStr ("./x"))).2.1 (by decide)⟩
